import Mathlib

/-!
Verification of the checkpointed log-stream capture engine of
`src/data_generation/run_solver.py`.

The engine is embedded shallowly:

* a decoded text line is a `List Char`;
* the solver's output stream is a `List (Line × ℚ)`, pairing each line with
  the elapsed wall-clock time (in seconds) sampled when that line is
  processed — in the source the elapsed time is an external input
  (`time.time() - start_time`), so it is threaded in as data;
* Python `float` values are modelled as `ℚ`;
* fallible operations return `Except RunError`, where `RunError` covers the
  exceptions the loop body can raise (`IndexError` from list indexing,
  `ValueError` from tuple unpacking of `split('=')` or from `float(...)`).

The external-world preconditions of `run_problem` (executable on the search
path, model/instance files existing) and the process spawn itself are outside
the embedding: the stream argument stands for the child's decoded standard
output.
-/

attribute [local semireducible] Rat.add Rat.mul Rat.inv Rat.sub

/-- Exceptions the embedded loop can raise. -/
inductive RunError where
  | indexError
  | valueError
deriving DecidableEq

instance {ε α : Type} [DecidableEq ε] [DecidableEq α] : DecidableEq (Except ε α) :=
  fun x y =>
    match x, y with
    | .ok a, .ok b =>
        if h : a = b then isTrue (by rw [h])
        else isFalse (fun hh => by cases hh; exact h rfl)
    | .error a, .error b =>
        if h : a = b then isTrue (by rw [h])
        else isFalse (fun hh => by cases hh; exact h rfl)
    | .ok _, .error _ => isFalse (fun hh => by cases hh)
    | .error _, .ok _ => isFalse (fun hh => by cases hh)

/-- A decoded text line of the solver's output. -/
abbrev Line := List Char

/-- `is_stat_related` (run_solver.py lines 128-133): `line[:11] == '%%%mzn-stat'`. -/
def is_stat_related (line : Line) : Bool :=
  line.take 11 == "%%%mzn-stat".toList

/-- `is_stat_value` (run_solver.py lines 136-141): `line[:13] == '%%%mzn-stat: '`. -/
def is_stat_value (line : Line) : Bool :=
  line.take 13 == "%%%mzn-stat: ".toList

/-- `stat_block_end` (run_solver.py lines 144-149): `line[:15] == '%%%mzn-stat-end'`. -/
def stat_block_end (line : Line) : Bool :=
  line.take 15 == "%%%mzn-stat-end".toList

/-- `is_solution` (run_solver.py lines 152-156): `line == '----------\n'`. -/
def is_solution (line : Line) : Bool :=
  line == "----------\n".toList

/-- `reached_save_point` (run_solver.py lines 116-125).  Returns
`elapsed / (timeout / 1000) >= save_percentages[save_idx] / 100` unless
`save_idx` equals the list length (then `False`); indexing past the end is
Python's `IndexError`. -/
def reached_save_point (elapsed : ℚ) (timeout : ℤ) (save_percentages : List ℤ)
    (save_idx : ℕ) : Except RunError Bool :=
  if save_idx = save_percentages.length then .ok false
  else
    match save_percentages.get? save_idx with
    | some p => .ok (decide ((p : ℚ) / 100 ≤ elapsed / ((timeout : ℚ) / 1000)))
    | none => .error .indexError

/-- `Output` dataclass: one feature snapshot.  The Python `Dict[str, float]`
is modelled as an insertion-ordered association list (`dictInsert` below
mirrors `dict.__setitem__`). -/
structure Output where
  percent : ℤ
  features : List (Line × ℚ)
deriving DecidableEq

/-- `ProblemResults` dataclass. -/
structure ProblemResults where
  model : Line
  problem_instance : Option Line
  solved : Bool
  results : List Output
deriving DecidableEq

/-- `d[k] = v` on a Python dict modelled as an insertion-ordered association
list: overwrite in place if the key is present, else append. -/
def dictInsert (d : List (Line × ℚ)) (k : Line) (v : ℚ) : List (Line × ℚ) :=
  if d.any (fun p => p.1 == k) then
    d.map (fun p => if p.1 == k then (p.1, v) else p)
  else
    d ++ [(k, v)]

/-- `d.get(k)` on the association-list dict model. -/
def featureLookup (d : List (Line × ℚ)) (k : Line) : Option ℚ :=
  match d.find? (fun p => p.1 == k) with
  | some p => some p.2
  | none => none

/-- Whitespace characters stripped by Python's `float(str)` conversion. -/
def pyWS : List Char := [' ', '\t', '\n', '\r', '\x0b', '\x0c']

/-- Strip leading and trailing whitespace, as `float(str)` does. -/
def stripWS (s : Line) : Line :=
  ((s.dropWhile (fun c => pyWS.contains c)).reverse.dropWhile
    (fun c => pyWS.contains c)).reverse

/-- Numeric value of a digit string (caller guarantees all digits). -/
def natOfDigits (l : Line) : ℕ :=
  l.foldl (fun a c => 10 * a + (c.toNat - '0'.toNat)) 0

/-- Unsigned mantissa of a decimal literal: `digits`, `digits.digits`,
`digits.` or `.digits`, with at least one digit overall. -/
def parseUnsignedBody (l : Line) : Option ℚ :=
  match l.splitOn '.' with
  | [ip] =>
      if !ip.isEmpty && ip.all Char.isDigit then some (natOfDigits ip)
      else none
  | [ip, fp] =>
      if (!ip.isEmpty || !fp.isEmpty) && ip.all Char.isDigit
          && fp.all Char.isDigit then
        some ((natOfDigits ip : ℚ) + (natOfDigits fp : ℚ) / (10 : ℚ) ^ fp.length)
      else none
  | _ => none

/-- Signed integer exponent after `e`/`E`. -/
def parseExp (l : Line) : Option ℤ :=
  match l with
  | '+' :: r => if !r.isEmpty && r.all Char.isDigit then some (natOfDigits r) else none
  | '-' :: r => if !r.isEmpty && r.all Char.isDigit then some (-(natOfDigits r : ℤ)) else none
  | r => if !r.isEmpty && r.all Char.isDigit then some (natOfDigits r) else none

/-- Python's `float(str)` restricted to decimal literals: optional
surrounding whitespace, optional sign, decimal mantissa, optional decimal
exponent.  Special values (`inf`, `nan`) and digit-group underscores are not
modelled; the result is exact (`ℚ`) rather than rounded to binary floating
point, which is faithful for every value the claims exercise. -/
def parseFloat (s : Line) : Option ℚ :=
  let t := stripWS s
  let sb : ℚ × Line :=
    match t with
    | '+' :: r => (1, r)
    | '-' :: r => (-1, r)
    | r => (1, r)
  match sb.2.splitOnP (fun c => c == 'e' || c == 'E') with
  | [m] => (parseUnsignedBody m).map (fun q => sb.1 * q)
  | [m, e] =>
      match parseUnsignedBody m, parseExp e with
      | some q, some ex => some (sb.1 * q * (10 : ℚ) ^ ex)
      | _, _ => none
  | _ => none

/-- Mutable state of the `for line in proc.stdout` loop of `run_problem`
(run_solver.py lines 63-69 initialise it, lines 81-107 update it). -/
structure LoopState where
  results : List Output
  save_idx : ℕ
  next_save_point : ℤ
  output : Output
  capture_next_block : Bool
  is_next_block : Bool
  found_one_solution : Bool
deriving DecidableEq

/-- Lines 83-84: `if not found_one_solution and is_solution(line)`. -/
def noteSolution (st : LoopState) (line : Line) : LoopState :=
  if !st.found_one_solution && is_solution line then
    { st with found_one_solution := true }
  else st

/-- Lines 89-93: begin a capture when a save point is due and no capture is
in flight; consumes one checkpoint target. -/
def armCheck (time_limit : ℤ) (save_percentages : List ℤ) (st : LoopState)
    (elapsed : ℚ) : Except RunError LoopState :=
  if !st.capture_next_block then
    match reached_save_point elapsed time_limit save_percentages st.save_idx with
    | .error e => .error e
    | .ok true =>
        match save_percentages.get? st.save_idx with
        | some p =>
            .ok { st with capture_next_block := true, next_save_point := p,
                          save_idx := st.save_idx + 1 }
        | none => .error .indexError
    | .ok false => .ok st
  else .ok st

/-- Lines 95-107: the capture branch of the loop body.  While
`capture_next_block and is_next_block`, a value line is parsed and stored
(malformed ones raise `ValueError`), a block-end line finalizes the pending
snapshot; otherwise a block-end line while armed marks the next block as the
one to capture. -/
def captureStep (st : LoopState) (line : Line) : Except RunError LoopState :=
  if st.capture_next_block && st.is_next_block then
    if is_stat_value line then
      match (line.drop 13).splitOn '=' with
      | [name, stat] =>
          match parseFloat stat with
          | some v =>
              .ok { st with output := { st.output with
                      features := dictInsert st.output.features name v } }
          | none => .error .valueError
      | _ => .error .valueError
    else if stat_block_end line then
      .ok { st with capture_next_block := false, is_next_block := false,
                    results := st.results ++ [st.output],
                    output := { percent := st.next_save_point, features := [] } }
    else .ok st
  else if st.capture_next_block && stat_block_end line then
    .ok { st with is_next_block := true }
  else .ok st

/-- One iteration of the loop body (lines 81-107) on one decoded line and
the elapsed time sampled for it. -/
def step (time_limit : ℤ) (save_percentages : List ℤ) (st : LoopState)
    (le : Line × ℚ) : Except RunError LoopState :=
  if is_stat_related le.1 then
    match armCheck time_limit save_percentages (noteSolution st le.1) le.2 with
    | .error e => .error e
    | .ok st' => captureStep st' le.1
  else .ok (noteSolution st le.1)

/-- The whole `for line in proc.stdout` loop. -/
def runLines (time_limit : ℤ) (save_percentages : List ℤ) :
    LoopState → List (Line × ℚ) → Except RunError LoopState
  | st, [] => .ok st
  | st, le :: rest =>
    match step time_limit save_percentages st le with
    | .error e => .error e
    | .ok st' => runLines time_limit save_percentages st' rest

/-- Loop-state initialisation (lines 63-69), given
`p0 = save_percentages[0]`. -/
def initState (p0 : ℤ) : LoopState :=
  { results := [], save_idx := 0, next_save_point := p0,
    output := { percent := p0, features := [] },
    capture_next_block := false, is_next_block := false,
    found_one_solution := false }

/-- `run_problem` (run_solver.py lines 24-113), after its external
precondition checks: `save_percentages[0]` (line 65, `IndexError` when the
list is empty, raised before the child process is spawned), then the
line-processing loop over the child's output stream, then assembly of the
`ProblemResults` (`solved` from `found_one_solution`, snapshots from the
appended `results`; the still-pending `output` is dropped). -/
def run_problem (model : Line) (problem_instance : Option Line)
    (time_limit : ℤ) (save_percentages : List ℤ)
    (stream : List (Line × ℚ)) : Except RunError ProblemResults :=
  match save_percentages.get? 0 with
  | none => .error .indexError
  | some p0 =>
    match runLines time_limit save_percentages (initState p0) stream with
    | .error e => .error e
    | .ok st =>
        .ok { model := model, problem_instance := problem_instance,
              solved := st.found_one_solution, results := st.results }

/-- The loop state after the initial state (targets `[50]`) has processed
one due block-end line: armed, with the next block marked for capture. -/
def armedState : LoopState :=
  { results := [], save_idx := 1, next_save_point := 50,
    output := { percent := 50, features := [] }, capture_next_block := true,
    is_next_block := true, found_one_solution := false }

/-- A well-formed statistics value line, as emitted inside each synthetic
statistics block. -/
def statLine : Line := "%%%mzn-stat: a=1.0\n".toList

/-- The statistics block-end line. -/
def endLine : Line := "%%%mzn-stat-end\n".toList

/-- Synthetic solver output for a checkpoint list `T` and a 1000 ms budget:
one well-formed statistics block (one value line, then the block-end line)
per target, block `k` emitted at elapsed time `T[k]/100` seconds — exactly
when target `k` becomes due and before any later target is due (for
strictly increasing `T`). -/
def mkStream : List ℤ → List (Line × ℚ)
  | [] => []
  | t :: ts => (statLine, (t : ℚ) / 100) :: (endLine, (t : ℚ) / 100) :: mkStream ts

/-- The snapshots `run_problem` actually produces on `mkStream B` when the
loop starts with pending label `lab` and next-target index `j` into the full
checkpoint list `T`: one snapshot per *pair* of blocks (the armed block is
skipped, the following one is captured), and the pending label lags one
capture behind the consumed target. -/
def expectedOutputs (T : List ℤ) : ℤ → ℕ → List ℤ → List Output
  | _, _, [] => []
  | _, _, [_] => []
  | lab, j, _ :: _ :: B =>
      { percent := lab, features := [("a".toList, 1)] } ::
        expectedOutputs T (T.getD j 0) (j + 1) B

/-- Solver output in which only 2 of 4 configured checkpoints complete: two
full captured blocks, then a third capture that is still in flight when the
stream ends. -/
def shortStream : List (Line × ℚ) :=
  [(endLine, 15/100), (statLine, 15/100), (endLine, 15/100),
   (endLine, 25/100), (statLine, 25/100), (endLine, 25/100),
   (endLine, 35/100), (statLine, 35/100)]

theorem take_length_eq_iff (p : Line) :
    ∀ l : Line, l.take p.length = p ↔ p.isPrefixOf l = true := by
  induction p with
  | nil => intro l; simp [List.isPrefixOf]
  | cons a as ih =>
    intro l
    cases l with
    | nil => simp [List.isPrefixOf]
    | cons b bs =>
      simp only [List.length_cons, List.take_succ_cons, List.isPrefixOf,
        Bool.and_eq_true, beq_iff_eq, List.cons.injEq, ih bs]
      exact and_congr_left (fun _ => eq_comm)

/-- C6: `is_stat_related` holds exactly on lines starting with `%%%mzn-stat`,
`is_stat_value` exactly on lines starting with `%%%mzn-stat: `, and
`stat_block_end` exactly on lines starting with `%%%mzn-stat-end`; the
classification is a byte-exact prefix comparison, and the empty line
satisfies none of the classifiers (nor the solution test). -/
theorem classifier_prefix_exact : ∀ l : Line,
    (is_stat_related l = true ↔ List.isPrefixOf "%%%mzn-stat".toList l = true) ∧
    (is_stat_value l = true ↔ List.isPrefixOf "%%%mzn-stat: ".toList l = true) ∧
    (stat_block_end l = true ↔ List.isPrefixOf "%%%mzn-stat-end".toList l = true) ∧
    (is_stat_related [] = false ∧ is_stat_value [] = false ∧
      stat_block_end [] = false ∧ is_solution [] = false) := by
  intro l
  refine ⟨?_, ?_, ?_, by decide⟩
  · rw [is_stat_related, show (11 : ℕ) = ("%%%mzn-stat".toList).length from rfl,
      beq_iff_eq]
    exact take_length_eq_iff _ l
  · rw [is_stat_value, show (13 : ℕ) = ("%%%mzn-stat: ".toList).length from rfl,
      beq_iff_eq]
    exact take_length_eq_iff _ l
  · rw [stat_block_end, show (15 : ℕ) = ("%%%mzn-stat-end".toList).length from rfl,
      beq_iff_eq]
    exact take_length_eq_iff _ l

/-- C8: `reached_save_point(elapsed, timeout, save_percentages, save_idx)`
returns `True` exactly when a target remains
(`save_idx < len(save_percentages)`) and
`elapsed / (timeout / 1000) >= save_percentages[save_idx] / 100`. -/
theorem reached_save_point_iff
    (elapsed : ℚ) (timeout : ℤ) (save_percentages : List ℤ) (save_idx : ℕ) :
    reached_save_point elapsed timeout save_percentages save_idx = .ok true ↔
      (save_idx < save_percentages.length ∧
        (save_percentages.getD save_idx 0 : ℚ) / 100 ≤
          elapsed / ((timeout : ℚ) / 1000)) := by
  unfold reached_save_point
  by_cases hlen : save_idx = save_percentages.length
  · simp [hlen]
  · cases hg : save_percentages.get? save_idx with
    | none =>
        have hge : save_percentages.length ≤ save_idx := List.get?_eq_none.mp hg
        simp only [if_neg hlen, hg]
        constructor
        · intro h; cases h
        · rintro ⟨hlt, -⟩; exact absurd hlt (not_lt.mpr hge)
    | some p =>
        have hlt : save_idx < save_percentages.length := by
          by_contra hge
          rw [List.get?_eq_none.mpr (not_lt.mp hge)] at hg
          cases hg
        have hElem : save_percentages[save_idx]? = some p := by
          rw [← List.get?_eq_getElem?]; exact hg
        simp [hlen, hg, hlt, decide_eq_true_eq, List.getD_eq_getElem?_getD, hElem]

/-- C10: when `save_percentages` is empty, `run_problem` raises `IndexError`
in its setup (`save_percentages[save_idx]` at line 65) — for every possible
solver output stream, i.e. before and independently of the spawned child
process. -/
theorem run_problem_empty_percentages (model : Line)
    (problem_instance : Option Line) (time_limit : ℤ)
    (stream : List (Line × ℚ)) :
    run_problem model problem_instance time_limit [] stream =
      .error .indexError := rfl

theorem noteSolution_eq (st : LoopState) (l : Line) :
    noteSolution st l =
      { st with found_one_solution := st.found_one_solution || is_solution l } := by
  obtain ⟨r, si, nsp, o, c, inb, f⟩ := st
  cases f <;> cases hs : is_solution l <;> simp [noteSolution, hs]

theorem noteSolution_not_sol (st : LoopState) (l : Line)
    (h : is_solution l = false) : noteSolution st l = st := by
  rw [noteSolution_eq, h]
  simp

theorem armCheck_capturing (tl : ℤ) (sps : List ℤ) (st : LoopState) (e : ℚ)
    (hc : st.capture_next_block = true) : armCheck tl sps st e = .ok st := by
  simp [armCheck, hc]

theorem armCheck_arms (tl : ℤ) (sps : List ℤ) (st : LoopState) (e : ℚ) (p : ℤ)
    (hc : st.capture_next_block = false)
    (hr : reached_save_point e tl sps st.save_idx = .ok true)
    (hg : sps.get? st.save_idx = some p) :
    armCheck tl sps st e =
      .ok { st with capture_next_block := true, next_save_point := p,
                    save_idx := st.save_idx + 1 } := by
  have hg' : sps[st.save_idx]? = some p := by
    rw [← List.get?_eq_getElem?]; exact hg
  simp [armCheck, hc, hr, hg']

theorem armCheck_not_due (tl : ℤ) (sps : List ℤ) (st : LoopState) (e : ℚ)
    (hc : st.capture_next_block = false)
    (hr : reached_save_point e tl sps st.save_idx = .ok false) :
    armCheck tl sps st e = .ok st := by
  simp [armCheck, hc, hr]

theorem armCheck_reached_error (tl : ℤ) (sps : List ℤ) (st : LoopState)
    (e : ℚ) (er : RunError)
    (hc : st.capture_next_block = false)
    (hr : reached_save_point e tl sps st.save_idx = .error er) :
    armCheck tl sps st e = .error er := by
  simp [armCheck, hc, hr]

theorem armCheck_get_none (tl : ℤ) (sps : List ℤ) (st : LoopState) (e : ℚ)
    (hc : st.capture_next_block = false)
    (hr : reached_save_point e tl sps st.save_idx = .ok true)
    (hg : sps.get? st.save_idx = none) :
    armCheck tl sps st e = .error .indexError := by
  have hg' : sps[st.save_idx]? = none := by
    rw [← List.get?_eq_getElem?]; exact hg
  simp [armCheck, hc, hr, hg']

theorem armCheck_fields (tl : ℤ) (sps : List ℤ) (st : LoopState) (e : ℚ)
    (st' : LoopState) (h : armCheck tl sps st e = .ok st') :
    st'.found_one_solution = st.found_one_solution ∧
    st'.is_next_block = st.is_next_block ∧
    st'.results = st.results ∧ st'.output = st.output := by
  unfold armCheck at h
  repeat' split at h
  all_goals
    first
      | (simp only [Except.ok.injEq] at h; subst h; exact ⟨rfl, rfl, rfl, rfl⟩)
      | simp at h

theorem captureStep_fields (st : LoopState) (l : Line) (st' : LoopState)
    (h : captureStep st l = .ok st') :
    st'.save_idx = st.save_idx ∧
    st'.found_one_solution = st.found_one_solution := by
  unfold captureStep at h
  repeat' split at h
  all_goals
    first
      | (simp only [Except.ok.injEq] at h; subst h; exact ⟨rfl, rfl⟩)
      | simp at h

theorem step_found (tl : ℤ) (sps : List ℤ) (st : LoopState) (le : Line × ℚ)
    (st' : LoopState) (h : step tl sps st le = .ok st') :
    st'.found_one_solution = (st.found_one_solution || is_solution le.1) := by
  unfold step at h
  split at h
  · cases ha : armCheck tl sps (noteSolution st le.1) le.2 with
    | error e => rw [ha] at h; cases h
    | ok stA =>
        rw [ha] at h
        have h1 := (captureStep_fields stA le.1 st' h).2
        have h2 := (armCheck_fields _ _ _ _ _ ha).1
        rw [h1, h2, noteSolution_eq]
  · simp only [Except.ok.injEq] at h
    subst h
    rw [noteSolution_eq]

theorem runLines_found (tl : ℤ) (sps : List ℤ) :
    ∀ (stream : List (Line × ℚ)) (st st' : LoopState),
      runLines tl sps st stream = .ok st' →
      st'.found_one_solution =
        (st.found_one_solution || stream.any (fun le => is_solution le.1)) := by
  intro stream
  induction stream with
  | nil =>
      intro st st' h
      simp only [runLines, Except.ok.injEq] at h
      subst h
      simp
  | cons le rest ih =>
      intro st st' h
      simp only [runLines] at h
      cases hs : step tl sps st le with
      | error e => rw [hs] at h; cases h
      | ok stM =>
          rw [hs] at h
          rw [ih stM st' h, step_found tl sps st le stM hs]
          simp [Bool.or_assoc]

theorem runLines_append (tl : ℤ) (sps : List ℤ) :
    ∀ (as bs : List (Line × ℚ)) (st : LoopState),
      runLines tl sps st (as ++ bs) =
        match runLines tl sps st as with
        | .error e => .error e
        | .ok st' => runLines tl sps st' bs := by
  intro as
  induction as with
  | nil => intro bs st; rfl
  | cons a t ih =>
      intro bs st
      simp only [List.cons_append, runLines]
      cases step tl sps st a <;> simp [ih]

/-- C4: the `solved` flag of the returned `ProblemResults` is true exactly
when some line of the stream is the literal solution marker `----------\n`
(first conjunct); and across any processed line sequence the
`found_one_solution` flag accumulates monotonically — it is the old flag
OR-ed with the occurrence of a marker, so it becomes true at the first
marker and never reverts, however many markers appear (second conjunct). -/
theorem solved_iff_solution_marker :
    (∀ (model : Line) (problem_instance : Option Line) (tl : ℤ)
        (sps : List ℤ) (stream : List (Line × ℚ)) (r : ProblemResults),
        run_problem model problem_instance tl sps stream = .ok r →
        (r.solved = true ↔ ∃ le ∈ stream, le.1 = "----------\n".toList)) ∧
    (∀ (tl : ℤ) (sps : List ℤ) (st : LoopState) (stream : List (Line × ℚ))
        (st' : LoopState),
        runLines tl sps st stream = .ok st' →
        st'.found_one_solution =
          (st.found_one_solution || stream.any (fun le => is_solution le.1))) := by
  constructor
  · intro model problem_instance tl sps stream r h
    unfold run_problem at h
    cases hg : sps.get? 0 with
    | none => rw [hg] at h; cases h
    | some p0 =>
        rw [hg] at h
        dsimp only at h
        cases hrun : runLines tl sps (initState p0) stream with
        | error e => rw [hrun] at h; cases h
        | ok st =>
            rw [hrun] at h
            simp only [Except.ok.injEq] at h
            subst h
            have hf := runLines_found tl sps stream (initState p0) st hrun
            simp only [initState] at hf
            dsimp only
            rw [hf]
            simp [List.any_eq_true, is_solution]
  · intro tl sps st stream st'
    exact runLines_found tl sps stream st st'

/-- C4 witness: a run whose stream is just one solution-marker line has
`solved = true`, and the marker indeed occurs in the stream. -/
theorem solved_iff_solution_marker_witness :
    (({ model := "m".toList, problem_instance := none, solved := true,
        results := [] } : ProblemResults).solved = true ↔
      ∃ le ∈ [(("----------\n".toList : Line), (1/10 : ℚ))],
        le.1 = "----------\n".toList) :=
  solved_iff_solution_marker.1 "m".toList none 1000 [50]
    [("----------\n".toList, 1/10)] _ (by decide)

/-- C7: one loop iteration advances `save_idx` by exactly one when a capture
is begun — the line is statistics-related, no capture is in flight, and the
due-check `reached_save_point` returns true — and leaves it unchanged in
every other case.  Hence at most one checkpoint target is consumed per line
(and so per captured statistics block), even when elapsed time has made
several targets simultaneously due. -/
theorem save_idx_advances_once :
    ∀ (tl : ℤ) (sps : List ℤ) (st : LoopState) (le : Line × ℚ)
      (st' : LoopState), step tl sps st le = .ok st' →
      (st'.save_idx = st.save_idx + 1 ∨ st'.save_idx = st.save_idx) ∧
      (st'.save_idx = st.save_idx + 1 ↔
        (is_stat_related le.1 = true ∧ st.capture_next_block = false ∧
          reached_save_point le.2 tl sps st.save_idx = .ok true)) := by
  intro tl sps st le st' h
  obtain ⟨R, si, nsp, o, c, inb, f⟩ := st
  unfold step at h
  split at h
  case isTrue hrel =>
    rw [noteSolution_eq] at h
    dsimp only at h ⊢
    cases c with
    | true =>
        rw [armCheck_capturing tl sps _ le.2 rfl] at h
        have hidx := (captureStep_fields _ _ _ h).1
        dsimp only at hidx
        constructor
        · exact Or.inr hidx
        · constructor
          · intro hadv; rw [hidx] at hadv; omega
          · rintro ⟨-, hcf, -⟩; simp at hcf
    | false =>
        cases hr : reached_save_point le.2 tl sps si with
        | error e =>
            rw [armCheck_reached_error tl sps _ le.2 e rfl hr] at h
            cases h
        | ok b =>
            cases b with
            | false =>
                rw [armCheck_not_due tl sps _ le.2 rfl hr] at h
                have hidx := (captureStep_fields _ _ _ h).1
                dsimp only at hidx
                constructor
                · exact Or.inr hidx
                · constructor
                  · intro hadv; rw [hidx] at hadv; omega
                  · rintro ⟨-, -, hrt⟩
                    simp at hrt
            | true =>
                cases hg : sps.get? si with
                | none =>
                    rw [armCheck_get_none tl sps _ le.2 rfl hr hg] at h
                    cases h
                | some p =>
                    rw [armCheck_arms tl sps _ le.2 p rfl hr hg] at h
                    have hidx := (captureStep_fields _ _ _ h).1
                    dsimp only at hidx
                    constructor
                    · exact Or.inl hidx
                    · exact ⟨fun _ => ⟨hrel, rfl, rfl⟩, fun _ => hidx⟩
  case isFalse hrel =>
    simp only [Except.ok.injEq] at h
    subst h
    rw [noteSolution_eq]
    dsimp only
    constructor
    · exact Or.inr rfl
    · constructor
      · intro hadv; omega
      · rintro ⟨hr2, -, -⟩; exact absurd hr2 (by simpa using hrel)

/-- C7 witness: a due block-end line at 600 ms from the initial state
advances `save_idx` from 0 to 1, and the due-check condition holds there. -/
theorem save_idx_advances_once_witness :
    (armedState.save_idx = (initState 50).save_idx + 1 ∨
      armedState.save_idx = (initState 50).save_idx) ∧
    (armedState.save_idx = (initState 50).save_idx + 1 ↔
      (is_stat_related "%%%mzn-stat-end\n".toList = true ∧
        (initState 50).capture_next_block = false ∧
        reached_save_point (6/10) 1000 [50] (initState 50).save_idx = .ok true)) :=
  save_idx_advances_once 1000 [50] (initState 50) ("%%%mzn-stat-end\n".toList, 6/10)
    armedState (by decide)

theorem featureLookup_cons_found (x : Line × ℚ) (t : List (Line × ℚ))
    (k : Line) (hb : (x.1 == k) = true) :
    featureLookup (x :: t) k = some x.2 := by
  unfold featureLookup
  rw [show List.find? (fun p : Line × ℚ => p.1 == k) (x :: t) = some x from
    List.find?_cons_of_pos _ hb]

theorem featureLookup_cons_skip (x : Line × ℚ) (t : List (Line × ℚ))
    (k : Line) (hb : (x.1 == k) = false) :
    featureLookup (x :: t) k = featureLookup t k := by
  unfold featureLookup
  rw [List.find?_cons_of_neg]
  simp [hb]

theorem featureLookup_map_overwrite (k : Line) (v : ℚ) :
    ∀ d : List (Line × ℚ), d.any (fun p => p.1 == k) = true →
      featureLookup (d.map (fun p => if p.1 == k then (p.1, v) else p)) k =
        some v := by
  intro d
  induction d with
  | nil => intro h; simp at h
  | cons p t ih =>
      intro h
      rw [List.map_cons]
      cases hb : p.1 == k with
      | true =>
          rw [if_pos rfl, featureLookup_cons_found (p.1, v) _ k hb]
      | false =>
          have h' : t.any (fun p => p.1 == k) = true := by
            rw [List.any_cons, hb] at h
            simpa using h
          rw [if_neg (by simp), featureLookup_cons_skip _ _ _ hb, ih h']

theorem featureLookup_not_found (k : Line) :
    ∀ d : List (Line × ℚ), d.any (fun p => p.1 == k) = false →
      featureLookup d k = none := by
  intro d
  induction d with
  | nil => intro h; rfl
  | cons p t ih =>
      intro h
      rw [List.any_cons] at h
      have hb : (p.1 == k) = false := by
        cases hx : p.1 == k
        · rfl
        · rw [hx] at h; simp at h
      have ht : t.any (fun p => p.1 == k) = false := by
        rw [hb] at h
        simpa using h
      rw [featureLookup_cons_skip _ _ _ hb, ih ht]

theorem featureLookup_append (k : Line) (s : List (Line × ℚ)) :
    ∀ d : List (Line × ℚ),
      featureLookup (d ++ s) k =
        match featureLookup d k with
        | some v => some v
        | none => featureLookup s k := by
  intro d
  induction d with
  | nil => rfl
  | cons p t ih =>
      rw [List.cons_append]
      cases hb : p.1 == k with
      | true =>
          rw [featureLookup_cons_found _ _ _ hb, featureLookup_cons_found _ _ _ hb]
      | false =>
          rw [featureLookup_cons_skip _ _ _ hb, featureLookup_cons_skip _ _ _ hb, ih]

theorem featureLookup_dictInsert_self (d : List (Line × ℚ)) (k : Line) (v : ℚ) :
    featureLookup (dictInsert d k v) k = some v := by
  unfold dictInsert
  cases hany : d.any (fun p => p.1 == k) with
  | true =>
      rw [if_pos rfl]
      exact featureLookup_map_overwrite k v d hany
  | false =>
      rw [if_neg (by simp), featureLookup_append,
        featureLookup_not_found k d hany,
        featureLookup_cons_found _ _ _ (beq_iff_eq.mpr rfl)]

theorem featureLookup_map_overwrite_ne (k : Line) (v : ℚ) (k' : Line)
    (h : k' ≠ k) :
    ∀ d : List (Line × ℚ),
      featureLookup (d.map (fun p => if p.1 == k then (p.1, v) else p)) k' =
        featureLookup d k' := by
  intro d
  induction d with
  | nil => rfl
  | cons p t ih =>
      rw [List.map_cons]
      cases hb : p.1 == k with
      | true =>
          have hpk : p.1 = k := beq_iff_eq.mp hb
          have hbk' : (p.1 == k') = false := by
            rw [hpk]; exact beq_eq_false_iff_ne.mpr (Ne.symm h)
          rw [if_pos rfl, featureLookup_cons_skip (p.1, v) _ k' hbk',
            featureLookup_cons_skip _ _ _ hbk', ih]
      | false =>
          cases hbk' : p.1 == k' with
          | true =>
              rw [if_neg (by simp), featureLookup_cons_found _ _ _ hbk',
                featureLookup_cons_found _ _ _ hbk']
          | false =>
              rw [if_neg (by simp), featureLookup_cons_skip _ _ _ hbk',
                featureLookup_cons_skip _ _ _ hbk', ih]

theorem featureLookup_dictInsert_ne (d : List (Line × ℚ)) (k : Line) (v : ℚ)
    (k' : Line) (h : k' ≠ k) :
    featureLookup (dictInsert d k v) k' = featureLookup d k' := by
  unfold dictInsert
  cases hany : d.any (fun p => p.1 == k) with
  | true =>
      rw [if_pos rfl]
      exact featureLookup_map_overwrite_ne k v k' h d
  | false =>
      have hkk' : (k == k') = false := beq_eq_false_iff_ne.mpr (Ne.symm h)
      rw [if_neg (by simp), featureLookup_append]
      cases hl : featureLookup d k' with
      | some w => rfl
      | none => rw [featureLookup_cons_skip _ _ _ hkk']; rfl

theorem is_stat_value_related (line : Line) (hv : is_stat_value line = true) :
    is_stat_related line = true := by
  have h13 : line.take 13 = "%%%mzn-stat: ".toList := by
    simpa [is_stat_value] using hv
  have h11 : line.take 11 = "%%%mzn-stat".toList := by
    have hh := congrArg (List.take 11) h13
    rw [List.take_take] at hh
    norm_num at hh
    rw [hh]
    decide
  simp [is_stat_related, h11]

theorem stat_block_end_related (line : Line) (he : stat_block_end line = true) :
    is_stat_related line = true := by
  have h15 : line.take 15 = "%%%mzn-stat-end".toList := by
    simpa [stat_block_end] using he
  have h11 : line.take 11 = "%%%mzn-stat".toList := by
    have hh := congrArg (List.take 11) h15
    rw [List.take_take] at hh
    norm_num at hh
    rw [hh]
    decide
  simp [is_stat_related, h11]

theorem captureStep_value (st : LoopState) (line : Line) (n s : Line) (v : ℚ)
    (hc : st.capture_next_block = true) (hn : st.is_next_block = true)
    (hv : is_stat_value line = true)
    (hsp : (line.drop 13).splitOn '=' = [n, s])
    (hpf : parseFloat s = some v) :
    captureStep st line =
      .ok { st with output := { st.output with
                                features := dictInsert st.output.features n v } } := by
  unfold captureStep
  rw [hc, hn, if_pos (show ((true && true) = true) from rfl), if_pos hv, hsp]
  dsimp only
  rw [hpf]

theorem captureStep_end_arm (st : LoopState) (line : Line)
    (hc : st.capture_next_block = true) (hn : st.is_next_block = false)
    (he : stat_block_end line = true) :
    captureStep st line = .ok { st with is_next_block := true } := by
  unfold captureStep
  rw [hc, hn, if_neg (show ¬((true && false) = true) from by decide), he,
    if_pos (show ((true && true) = true) from rfl)]

theorem captureStep_end_finalize (st : LoopState) (line : Line)
    (hc : st.capture_next_block = true) (hn : st.is_next_block = true)
    (hvf : is_stat_value line = false) (he : stat_block_end line = true) :
    captureStep st line =
      .ok { st with capture_next_block := false, is_next_block := false,
                    results := st.results ++ [st.output],
                    output := { percent := st.next_save_point,
                                features := [] } } := by
  unfold captureStep
  rw [hc, hn, if_pos (show ((true && true) = true) from rfl),
    if_neg (show ¬(is_stat_value line = true) from by simp [hvf]), if_pos he]

theorem captureStep_armed_skip (st : LoopState) (line : Line)
    (hc : st.capture_next_block = true) (hn : st.is_next_block = false)
    (he : stat_block_end line = false) :
    captureStep st line = .ok st := by
  unfold captureStep
  rw [hc, hn, if_neg (show ¬((true && false) = true) from by decide), he,
    if_neg (show ¬((true && false) = true) from by decide)]

theorem step_value_store (tl : ℤ) (sps : List ℤ) (st : LoopState) (line : Line)
    (e : ℚ) (n s : Line) (v : ℚ)
    (hsol : is_solution line = false)
    (hc : st.capture_next_block = true) (hn : st.is_next_block = true)
    (hv : is_stat_value line = true)
    (hsp : (line.drop 13).splitOn '=' = [n, s])
    (hpf : parseFloat s = some v) :
    step tl sps st (line, e) =
      .ok { st with output := { st.output with
                                features := dictInsert st.output.features n v } } := by
  have hrel := is_stat_value_related line hv
  unfold step
  dsimp only
  rw [if_pos hrel, noteSolution_not_sol st line hsol,
    armCheck_capturing tl sps st e hc]
  exact captureStep_value st line n s v hc hn hv hsp hpf

theorem step_end_sets_next (tl : ℤ) (sps : List ℤ) (st : LoopState)
    (line : Line) (e : ℚ)
    (hsol : is_solution line = false)
    (hc : st.capture_next_block = true) (hn : st.is_next_block = false)
    (he : stat_block_end line = true) :
    step tl sps st (line, e) = .ok { st with is_next_block := true } := by
  have hrel := stat_block_end_related line he
  unfold step
  dsimp only
  rw [if_pos hrel, noteSolution_not_sol st line hsol,
    armCheck_capturing tl sps st e hc]
  exact captureStep_end_arm st line hc hn he

theorem step_end_finalize (tl : ℤ) (sps : List ℤ) (st : LoopState)
    (line : Line) (e : ℚ)
    (hsol : is_solution line = false)
    (hc : st.capture_next_block = true) (hn : st.is_next_block = true)
    (hvf : is_stat_value line = false) (he : stat_block_end line = true) :
    step tl sps st (line, e) =
      .ok { st with capture_next_block := false, is_next_block := false,
                    results := st.results ++ [st.output],
                    output := { percent := st.next_save_point,
                                features := [] } } := by
  have hrel := stat_block_end_related line he
  unfold step
  dsimp only
  rw [if_pos hrel, noteSolution_not_sol st line hsol,
    armCheck_capturing tl sps st e hc]
  exact captureStep_end_finalize st line hc hn hvf he

theorem step_arm_on_value (tl : ℤ) (sps : List ℤ) (st : LoopState)
    (line : Line) (e : ℚ) (p : ℤ)
    (hsol : is_solution line = false)
    (hc : st.capture_next_block = false) (hn : st.is_next_block = false)
    (hrel : is_stat_related line = true) (he : stat_block_end line = false)
    (hr : reached_save_point e tl sps st.save_idx = .ok true)
    (hg : sps.get? st.save_idx = some p) :
    step tl sps st (line, e) =
      .ok { st with capture_next_block := true, next_save_point := p,
                    save_idx := st.save_idx + 1 } := by
  unfold step
  dsimp only
  rw [if_pos hrel, noteSolution_not_sol st line hsol,
    armCheck_arms tl sps st e p hc hr hg]
  exact captureStep_armed_skip _ line rfl hn he

/-- C9: while the machine is capturing the next block
(`capture_next_block` and `is_next_block` both set), the value line
`%%%mzn-stat: foo=3.5` stores `foo -> 3.5` into the pending snapshot's
feature mapping, overwriting any prior value for `foo` and leaving every
other key's value unchanged. -/
theorem capturing_value_line_stores (tl : ℤ) (sps : List ℤ) (st : LoopState)
    (e : ℚ) (hc : st.capture_next_block = true) (hn : st.is_next_block = true) :
    step tl sps st ("%%%mzn-stat: foo=3.5".toList, e) =
      .ok { st with output := { st.output with
                                features := dictInsert st.output.features
                                  "foo".toList (7/2) } } ∧
    featureLookup (dictInsert st.output.features "foo".toList (7/2))
      "foo".toList = some (7/2) ∧
    (∀ k : Line, k ≠ "foo".toList →
      featureLookup (dictInsert st.output.features "foo".toList (7/2)) k =
        featureLookup st.output.features k) := by
  refine ⟨?_, featureLookup_dictInsert_self _ _ _,
    fun k hk => featureLookup_dictInsert_ne _ _ _ _ hk⟩
  exact step_value_store tl sps st "%%%mzn-stat: foo=3.5".toList e
    "foo".toList "3.5".toList (7/2) (by decide) hc hn (by decide) (by decide)
    (by decide)

/-- C9 witness: from the armed state (empty pending features), storing
`foo=3.5` produces the pending mapping `{foo: 3.5}`. -/
theorem capturing_value_line_stores_witness :
    step 1000 [50] armedState ("%%%mzn-stat: foo=3.5".toList, 0) =
      .ok { results := [], save_idx := 1, next_save_point := 50,
            output := { percent := 50, features := [("foo".toList, 7/2)] },
            capture_next_block := true, is_next_block := true,
            found_one_solution := false } :=
  (capturing_value_line_stores 1000 [50] armedState 0 rfl rfl).1

theorem captureStep_malformed (st : LoopState) (line : Line)
    (hc : st.capture_next_block = true) (hn : st.is_next_block = true)
    (hv : is_stat_value line = true)
    (hbad : ∀ n s, (line.drop 13).splitOn '=' = [n, s] → parseFloat s = none) :
    captureStep st line = .error .valueError := by
  unfold captureStep
  rw [hc, hn]
  simp only [Bool.and_self, if_true, hv]
  cases hsp : (line.drop 13).splitOn '=' with
  | nil => rfl
  | cons a t =>
      cases t with
      | nil => rfl
      | cons b t2 =>
          cases t2 with
          | nil =>
              dsimp only
              rw [hbad a b hsp]
          | cons c t3 => rfl

theorem step_malformed (tl : ℤ) (sps : List ℤ) (st : LoopState) (line : Line)
    (e : ℚ) (hc : st.capture_next_block = true) (hn : st.is_next_block = true)
    (hv : is_stat_value line = true)
    (hbad : ∀ n s, (line.drop 13).splitOn '=' = [n, s] → parseFloat s = none) :
    step tl sps st (line, e) = .error .valueError := by
  have hrel := is_stat_value_related line hv
  have hcap : (noteSolution st line).capture_next_block = true := by
    rw [noteSolution_eq]; exact hc
  have hnb : (noteSolution st line).is_next_block = true := by
    rw [noteSolution_eq]; exact hn
  have hac := armCheck_capturing tl sps (noteSolution st line) e hcap
  have hcs := captureStep_malformed (noteSolution st line) line hcap hnb hv hbad
  simp [step, hrel, hac, hcs]

theorem run_problem_of_runLines_ok (model : Line)
    (problem_instance : Option Line) (tl : ℤ) (sps : List ℤ) (p0 : ℤ)
    (stream : List (Line × ℚ)) (st : LoopState)
    (hg : sps.get? 0 = some p0)
    (hrun : runLines tl sps (initState p0) stream = .ok st) :
    run_problem model problem_instance tl sps stream =
      .ok { model := model, problem_instance := problem_instance,
            solved := st.found_one_solution, results := st.results } := by
  unfold run_problem
  rw [hg]
  dsimp only
  rw [hrun]

/-- C3: a statistics value line received while capturing the next block that
does not split at `=` into exactly a name and a value, or whose value part
does not parse as a number, aborts the whole run: `run_problem` returns the
`ValueError` outcome, so no `ProblemResults` — in particular no snapshot for
the block being captured — is produced at all. -/
theorem malformed_value_line_aborts :
    ∀ (model : Line) (problem_instance : Option Line) (tl : ℤ) (sps : List ℤ)
      (p0 : ℤ) (pre rest : List (Line × ℚ)) (line : Line) (e : ℚ)
      (st : LoopState),
      sps.get? 0 = some p0 →
      runLines tl sps (initState p0) pre = .ok st →
      st.capture_next_block = true → st.is_next_block = true →
      is_stat_value line = true →
      (∀ n s, (line.drop 13).splitOn '=' = [n, s] → parseFloat s = none) →
      run_problem model problem_instance tl sps (pre ++ (line, e) :: rest) =
        .error .valueError := by
  intro model problem_instance tl sps p0 pre rest line e st hg hpre hc hn hv hbad
  have hstep := step_malformed tl sps st line e hc hn hv hbad
  have hrun : runLines tl sps (initState p0) (pre ++ (line, e) :: rest) =
      .error .valueError := by
    rw [runLines_append, hpre]
    simp only [runLines, hstep]
  unfold run_problem
  rw [hg]
  dsimp only
  rw [hrun]

/-- C3 witness: after one due block-end line has armed the capture, the
line `%%%mzn-stat: garbage` (which does not split at `=`) aborts the run
with `ValueError`. -/
theorem malformed_value_line_aborts_witness :
    run_problem "model.mzn".toList none 1000 [50]
      ([("%%%mzn-stat-end\n".toList, (6/10 : ℚ))] ++
        [("%%%mzn-stat: garbage\n".toList, (7/10 : ℚ))]) =
      .error .valueError :=
  malformed_value_line_aborts "model.mzn".toList none 1000 [50] 50
    [("%%%mzn-stat-end\n".toList, 6/10)] [] "%%%mzn-stat: garbage\n".toList
    (7/10) armedState rfl (by decide) rfl rfl (by decide)
    (by
      intro n s hsp
      rw [show ("%%%mzn-stat: garbage\n".toList.drop 13).splitOn '=' =
        ["garbage\n".toList] from by decide] at hsp
      simp at hsp)

/-- C5: a run whose stream ends early is not an error and is not padded —
whenever the line loop completes normally, `run_problem` returns exactly
the snapshots finalized so far (the pending unfinalized `output` is
discarded); concretely, with 4 configured checkpoints and a stream ending
after 2 finalized captures and one capture still in flight, the result
holds exactly 2 snapshots. -/
theorem early_end_keeps_partial_results :
    (∀ (model : Line) (problem_instance : Option Line) (tl : ℤ)
        (sps : List ℤ) (p0 : ℤ) (stream : List (Line × ℚ)) (st' : LoopState),
        sps.get? 0 = some p0 →
        runLines tl sps (initState p0) stream = .ok st' →
        run_problem model problem_instance tl sps stream =
          .ok { model := model, problem_instance := problem_instance,
                solved := st'.found_one_solution, results := st'.results }) ∧
    (run_problem "model.mzn".toList none 1000 [10, 20, 30, 40]
        shortStream).map (fun r => r.results.length) = .ok 2 := by
  exact ⟨fun model pi tl sps p0 stream st' hg hrun =>
    run_problem_of_runLines_ok model pi tl sps p0 stream st' hg hrun,
    by decide⟩

/-- C5 witness: the empty stream (process produced no output) yields a
normal, empty result. -/
theorem early_end_keeps_partial_results_witness :
    run_problem "m".toList none 1000 [50] [] =
      .ok { model := "m".toList, problem_instance := none, solved := false,
            results := [] } :=
  early_end_keeps_partial_results.1 "m".toList none 1000 [50] 50 []
    (initState 50) rfl rfl

/-- C1 as literally stated is false: with checkpoints `[50]`, budget
1000 ms, and a single well-formed statistics block at 600 ms (the value line
`%%%mzn-stat: x=1.0`, then the block-end line), `run_problem` returns a
result with NO snapshot, not one: the capture state machine only captures
the block *following* a block-end line, so the single block merely arms the
capture, which never completes. -/
theorem single_block_no_snapshot :
    run_problem "model.mzn".toList none 1000 [50]
      [("%%%mzn-stat: x=1.0\n".toList, 6/10), ("%%%mzn-stat-end\n".toList, 6/10)] =
      .ok { model := "model.mzn".toList, problem_instance := none,
            solved := false, results := [] } ∧
    ([] : List Output).length = 0 := by decide

/-- C1 amended: the captured block must be preceded by a block-end line
(the end marker of an earlier block).  With checkpoints `[50]`, budget
1000 ms, and at elapsed time 600 ms a block-end line followed by the
statistics block `x=1.0` / block-end, `run_problem` returns exactly one
snapshot `{percent: 50, features: {x: 1.0}}`. -/
theorem single_block_after_end_one_snapshot :
    run_problem "model.mzn".toList none 1000 [50]
      [("%%%mzn-stat-end\n".toList, 6/10), ("%%%mzn-stat: x=1.0\n".toList, 6/10),
       ("%%%mzn-stat-end\n".toList, 6/10)] =
      .ok { model := "model.mzn".toList, problem_instance := none,
            solved := false,
            results := [{ percent := 50, features := [("x".toList, 1)] }] } := by
  decide

theorem get?_eq_some_getD (T : List ℤ) (j : ℕ) (hj : j < T.length) :
    T.get? j = some (T.getD j 0) := by
  rw [List.get?_eq_getElem?, List.getElem?_eq_getElem hj,
    List.getD_eq_getElem?_getD, List.getElem?_eq_getElem hj]
  rfl

theorem reached_true_of_due (T : List ℤ) (j : ℕ) (t : ℤ)
    (hj : j < T.length) (hle : T.getD j 0 ≤ t) :
    reached_save_point ((t : ℚ) / 100) 1000 T j = .ok true := by
  unfold reached_save_point
  rw [if_neg (Nat.ne_of_lt hj), get?_eq_some_getD T j hj]
  dsimp only
  have hcast : (T.getD j 0 : ℚ) ≤ (t : ℚ) := by exact_mod_cast hle
  have hdiv : (T.getD j 0 : ℚ) / 100 ≤ (t : ℚ) / 100 / (((1000 : ℤ) : ℚ) / 1000) := by
    have h1 : (((1000 : ℤ) : ℚ) / 1000) = 1 := by norm_num
    rw [h1, div_one]
    exact (div_le_div_iff_of_pos_right (by norm_num)).mpr hcast
  rw [decide_eq_true hdiv]

theorem statLine_not_sol : is_solution statLine = false := by decide
theorem statLine_rel : is_stat_related statLine = true := by decide
theorem statLine_val : is_stat_value statLine = true := by decide
theorem statLine_not_end : stat_block_end statLine = false := by decide
theorem statLine_split :
    (statLine.drop 13).splitOn '=' = ["a".toList, "1.0\n".toList] := by decide
theorem statLine_parse : parseFloat "1.0\n".toList = some 1 := by decide
theorem endLine_not_sol : is_solution endLine = false := by decide
theorem endLine_end : stat_block_end endLine = true := by decide
theorem endLine_not_val : is_stat_value endLine = false := by decide

theorem step_arm_canonical (T : List ℤ) (j : ℕ) (R : List Output)
    (lab nsp : ℤ) (sol : Bool) (t : ℤ) (hj : j < T.length)
    (hle : T.getD j 0 ≤ t) :
    step 1000 T ⟨R, j, nsp, ⟨lab, []⟩, false, false, sol⟩
      (statLine, (t : ℚ) / 100) =
      .ok ⟨R, j + 1, T.getD j 0, ⟨lab, []⟩, true, false, sol⟩ :=
  step_arm_on_value 1000 T ⟨R, j, nsp, ⟨lab, []⟩, false, false, sol⟩
    statLine ((t : ℚ) / 100) (T.getD j 0) statLine_not_sol rfl rfl statLine_rel
    statLine_not_end (reached_true_of_due T j t hj hle) (get?_eq_some_getD T j hj)

theorem step_next_canonical (T : List ℤ) (j : ℕ) (R : List Output)
    (lab nsp : ℤ) (sol : Bool) (e : ℚ) :
    step 1000 T ⟨R, j, nsp, ⟨lab, []⟩, true, false, sol⟩ (endLine, e) =
      .ok ⟨R, j, nsp, ⟨lab, []⟩, true, true, sol⟩ :=
  step_end_sets_next 1000 T ⟨R, j, nsp, ⟨lab, []⟩, true, false, sol⟩
    endLine e endLine_not_sol rfl rfl endLine_end

theorem step_store_canonical (T : List ℤ) (j : ℕ) (R : List Output)
    (lab nsp : ℤ) (sol : Bool) (e : ℚ) :
    step 1000 T ⟨R, j, nsp, ⟨lab, []⟩, true, true, sol⟩ (statLine, e) =
      .ok ⟨R, j, nsp, ⟨lab, [("a".toList, 1)]⟩, true, true, sol⟩ :=
  step_value_store 1000 T ⟨R, j, nsp, ⟨lab, []⟩, true, true, sol⟩
    statLine e "a".toList "1.0\n".toList 1 statLine_not_sol rfl rfl
    statLine_val statLine_split statLine_parse

theorem step_finalize_canonical (T : List ℤ) (j : ℕ) (R : List Output)
    (lab nsp : ℤ) (sol : Bool) (f : List (Line × ℚ)) (e : ℚ) :
    step 1000 T ⟨R, j, nsp, ⟨lab, f⟩, true, true, sol⟩ (endLine, e) =
      .ok ⟨R ++ [⟨lab, f⟩], j, nsp, ⟨nsp, []⟩, false, false, sol⟩ :=
  step_end_finalize 1000 T ⟨R, j, nsp, ⟨lab, f⟩, true, true, sol⟩
    endLine e endLine_not_sol rfl rfl endLine_not_val endLine_end

theorem runLines_cons_ok (tl : ℤ) (sps : List ℤ) (st : LoopState)
    (le : Line × ℚ) (rest : List (Line × ℚ)) (st₁ : LoopState)
    (h : step tl sps st le = .ok st₁) :
    runLines tl sps st (le :: rest) = runLines tl sps st₁ rest := by
  simp only [runLines, h]

theorem runLines_mkStream (T : List ℤ) :
    ∀ (n : ℕ) (B : List ℤ) (j : ℕ) (R : List Output) (lab nsp : ℤ)
      (sol : Bool), B.length ≤ n →
      (∀ i, 2 * i < B.length → j + i < T.length ∧
        T.getD (j + i) 0 ≤ B.getD (2 * i) 0) →
      ∃ st' : LoopState,
        runLines 1000 T ⟨R, j, nsp, ⟨lab, []⟩, false, false, sol⟩
          (mkStream B) = .ok st' ∧
        st'.results = R ++ expectedOutputs T lab j B ∧
        st'.found_one_solution = sol := by
  intro n
  induction n with
  | zero =>
      intro B j R lab nsp sol hlen hdue
      have hB : B = [] := List.length_eq_zero.mp (Nat.le_zero.mp hlen)
      subst hB
      exact ⟨_, rfl, by simp [expectedOutputs], rfl⟩
  | succ m ih =>
      intro B j R lab nsp sol hlen hdue
      match B with
      | [] => exact ⟨_, rfl, by simp [expectedOutputs], rfl⟩
      | [t] =>
          obtain ⟨hjlt, hdle⟩ := hdue 0 (by simp)
          rw [Nat.add_zero] at hjlt hdle
          have hdle' : T.getD j 0 ≤ t := by simpa using hdle
          refine ⟨⟨R, j + 1, T.getD j 0, ⟨lab, []⟩, true, true, sol⟩, ?_, ?_, rfl⟩
          · simp only [mkStream]
            rw [runLines_cons_ok _ _ _ _ _ _
                (step_arm_canonical T j R lab nsp sol t hjlt hdle'),
              runLines_cons_ok _ _ _ _ _ _
                (step_next_canonical T (j + 1) R lab (T.getD j 0) sol
                  ((t : ℚ) / 100))]
            rfl
          · simp [expectedOutputs]
      | t₁ :: t₂ :: B' =>
          obtain ⟨hjlt, hdle⟩ := hdue 0 (by simp)
          rw [Nat.add_zero] at hjlt hdle
          have hdle' : T.getD j 0 ≤ t₁ := by simpa using hdle
          have hlen' : B'.length ≤ m := by
            simp only [List.length_cons] at hlen
            omega
          have hdue' : ∀ i, 2 * i < B'.length → j + 1 + i < T.length ∧
              T.getD (j + 1 + i) 0 ≤ B'.getD (2 * i) 0 := by
            intro i h2i
            have h22 : 2 * (i + 1) = 2 * i + 1 + 1 := by ring
            obtain ⟨ha, hb⟩ := hdue (i + 1)
              (by simp only [List.length_cons]; omega)
            constructor
            · omega
            · have hj1 : j + (i + 1) = j + 1 + i := by omega
              rw [hj1] at hb
              rw [h22, List.getD_cons_succ, List.getD_cons_succ] at hb
              exact hb
          obtain ⟨st', hrun, hres, hsol⟩ := ih B' (j + 1)
            (R ++ [⟨lab, [("a".toList, 1)]⟩]) (T.getD j 0) (T.getD j 0) sol
            hlen' hdue'
          refine ⟨st', ?_, ?_, hsol⟩
          · simp only [mkStream]
            rw [runLines_cons_ok _ _ _ _ _ _
                (step_arm_canonical T j R lab nsp sol t₁ hjlt hdle'),
              runLines_cons_ok _ _ _ _ _ _
                (step_next_canonical T (j + 1) R lab (T.getD j 0) sol
                  ((t₁ : ℚ) / 100)),
              runLines_cons_ok _ _ _ _ _ _
                (step_store_canonical T (j + 1) R lab (T.getD j 0) sol
                  ((t₂ : ℚ) / 100)),
              runLines_cons_ok _ _ _ _ _ _
                (step_finalize_canonical T (j + 1) R lab (T.getD j 0) sol
                  [("a".toList, 1)] ((t₂ : ℚ) / 100))]
            exact hrun
          · rw [hres]
            simp [expectedOutputs, List.append_assoc]

theorem expectedOutputs_length (T : List ℤ) :
    ∀ (n : ℕ) (B : List ℤ) (lab : ℤ) (j : ℕ), B.length ≤ n →
      (expectedOutputs T lab j B).length = B.length / 2 := by
  intro n
  induction n with
  | zero =>
      intro B lab j hlen
      have hB : B = [] := List.length_eq_zero.mp (Nat.le_zero.mp hlen)
      subst hB
      rfl
  | succ m ih =>
      intro B lab j hlen
      match B with
      | [] => rfl
      | [t] => simp [expectedOutputs]
      | t₁ :: t₂ :: B' =>
          have hlen' : B'.length ≤ m := by
            simp only [List.length_cons] at hlen
            omega
          simp only [expectedOutputs, List.length_cons]
          rw [ih B' (T.getD j 0) (j + 1) hlen']
          omega

theorem sorted_getD_mono (T : List ℤ) (hs : List.Sorted (· < ·) T) (i q : ℕ)
    (hiq : i ≤ q) (hq : q < T.length) : T.getD i 0 ≤ T.getD q 0 := by
  have hi : i < T.length := Nat.lt_of_le_of_lt hiq hq
  rcases eq_or_lt_of_le hiq with heq | hlt
  · subst heq
    exact le_rfl
  · have hget := List.pairwise_iff_get.mp hs ⟨i, hi⟩ ⟨q, hq⟩ (by simpa using hlt)
    have e1 : T.getD i 0 = T.get ⟨i, hi⟩ := by
      simp [List.getD_eq_getElem?_getD, List.getElem?_eq_getElem hi]
    have e2 : T.getD q 0 = T.get ⟨q, hq⟩ := by
      simp [List.getD_eq_getElem?_getD, List.getElem?_eq_getElem hq]
    rw [e1, e2]
    exact le_of_lt hget

/-- C2 as stated is false on the code: for the strictly increasing
checkpoint list `[25, 50]` within (0,100] and a synthetic stream with
exactly 2 well-formed statistics blocks, where exactly one target becomes
due before each block, `run_problem` produces ONE snapshot labeled `[25]`,
not two labeled `[25, 50]`. -/
theorem len_blocks_not_len_snapshots :
    (run_problem "model.mzn".toList none 1000 [25, 50] (mkStream [25, 50])).map
      (fun r => r.results.map Output.percent) = .ok [25] ∧
    ([25] : List ℤ) ≠ [25, 50] := by decide

/-- C2 amended: for every nonempty strictly increasing checkpoint list
`T` with entries in (0,100] and the synthetic stream with exactly
`len(T)` well-formed statistics blocks, block `k` becoming due exactly at
target `k`, `run_problem` returns exactly `⌊len(T)/2⌋` snapshots — only
every second block is captured, because a capture is begun on one block's
lines but only the block after the next block-end line is recorded — and
their percent labels lag: the first snapshot is labeled `T[0]`, and
snapshot `j ≥ 2` is labeled `T[j-2]` (this is `expectedOutputs`, whose
recursion emits label `lab` and passes `T[j]` as the next label). -/
theorem checkpoint_stream_snapshots (T : List ℤ) (hne : T ≠ [])
    (hsorted : List.Sorted (· < ·) T)
    (_hbounds : ∀ t ∈ T, 0 < t ∧ t ≤ 100) :
    run_problem "model.mzn".toList none 1000 T (mkStream T) =
      .ok { model := "model.mzn".toList, problem_instance := none,
            solved := false,
            results := expectedOutputs T (T.getD 0 0) 0 T } ∧
    (expectedOutputs T (T.getD 0 0) 0 T).length = T.length / 2 := by
  constructor
  · have h0 : 0 < T.length := List.length_pos.mpr hne
    have hg0 : T.get? 0 = some (T.getD 0 0) := get?_eq_some_getD T 0 h0
    have hdue : ∀ i, 2 * i < T.length → 0 + i < T.length ∧
        T.getD (0 + i) 0 ≤ T.getD (2 * i) 0 := by
      intro i h2i
      constructor
      · omega
      · have := sorted_getD_mono T hsorted i (2 * i) (by omega) h2i
        simpa using this
    obtain ⟨st', hrun, hres, hsol⟩ := runLines_mkStream T T.length T 0 []
      (T.getD 0 0) (T.getD 0 0) false le_rfl hdue
    have hrp := run_problem_of_runLines_ok "model.mzn".toList none 1000 T
      (T.getD 0 0) (mkStream T) st' hg0 hrun
    rw [hrp, hsol, hres]
    simp
  · exact expectedOutputs_length T T.length T (T.getD 0 0) 0 le_rfl

/-- C2 witness: at `T = [25, 50]` the amended statement holds — one
snapshot, labeled 25 and carrying the second block's features. -/
theorem checkpoint_stream_snapshots_witness :
    run_problem "model.mzn".toList none 1000 [25, 50] (mkStream [25, 50]) =
      .ok { model := "model.mzn".toList, problem_instance := none,
            solved := false,
            results := expectedOutputs [25, 50] (List.getD [25, 50] 0 0) 0
              [25, 50] } ∧
    (expectedOutputs [25, 50] (List.getD [25, 50] 0 0) 0 [25, 50]).length =
      [25, 50].length / 2 :=
  checkpoint_stream_snapshots [25, 50] (by decide) (by decide) (by decide)
